import Mathlib

/-!
Verification of the analytics response-normalization layer of the
trend-scape-dash dashboard.

The development shallowly embeds the normalization code:

* the bracket classifier of src/pages/SpiceGoldAnalytics.tsx
  (getBracketColor, getBracketLabel) and its chart-data transformation
  (the chartData filter/map pipeline with its range-string parsing);
* the response normalizer of the useSpiceGoldAnalytics hook in
  src/hooks/useAnalytics.ts (combined shape, nested-by-date aggregation
  by string keys over a JS Map, verbatim pass-through for the overall
  period);
* the page-traffic aggregator of src/pages/Analytics.tsx
  (aggregatedByPage with the credential to landing_page rewrite) and its
  guarded percentage computations.

JavaScript numbers that can only ever hold integers or NaN on the
modelled code paths are embedded as Int or as the JsNum type (an Int or
NaN); values that hold genuine fractions (percentages) are embedded as
JsFloat over the rationals, with float formatting (toFixed) modelled by
exact rational rounding, which is presentational only.  Strings are
Lean strings; absent string fields behave like the empty string exactly
where the source only tests truthiness.
-/

/-- The four time periods accepted by the SpiceGold analytics page. -/
inductive TimePeriod where
  | daily
  | weekly
  | monthly
  | overall
deriving DecidableEq, Repr

/-- A JavaScript number that is either an integer or NaN.  All numeric
values on the modelled code paths are produced by parseInt, which
returns an integer or NaN. -/
inductive JsNum where
  | nan
  | int (n : Int)
deriving DecidableEq, Repr

/-- Result record of getBracketLabel: label text, emoji, insight text. -/
structure BracketInfo where
  label : String
  emoji : String
  insight : String
deriving DecidableEq, Repr

/-- The effective upper bound used by getBracketColor:
the JavaScript expression `to || 100000`.  null, NaN and 0 are falsy,
so each of them selects the 100000 sentinel. -/
def bracketColorMax (toRange : Option JsNum) : Int :=
  match toRange with
  | some (JsNum.int n) => if n = 0 then 100000 else n
  | _ => 100000

/-- getBracketColor of src/pages/SpiceGoldAnalytics.tsx (lines 62-88):
a fixed ascending threshold table on the effective upper bound.  The
period parameter is accepted but never used by the body. -/
def getBracketColor (fromRange : Int) (toRange : Option JsNum)
    (period : TimePeriod) : String :=
  let max := bracketColorMax toRange
  if max ≤ 50 then "#ef4444"
  else if max ≤ 100 then "#c026d3"
  else if max ≤ 400 then "#2563eb"
  else if max ≤ 700 then "#facc15"
  else if max ≤ 1000 then "#16a34a"
  else if max ≤ 4000 then "#0284c7"
  else if max ≤ 7000 then "#f97316"
  else if max ≤ 15000 then "#7e22ce"
  else if max ≤ 23000 then "#78350f"
  else if max ≤ 31000 then "#f59e0b"
  else if max ≤ 62000 then "#06b6d4"
  else if max ≤ 93000 then "#4f46e5"
  else "#1e293b"

/-- The effective upper bound used by getBracketLabel:
the JavaScript expression `to || from + 10000`.  null, NaN and 0 are
falsy, so each of them selects the from + 10000 substitute. -/
def bracketLabelMax (fromRange : Int) (toRange : Option JsNum) : Int :=
  match toRange with
  | some (JsNum.int n) => if n = 0 then fromRange + 10000 else n
  | _ => fromRange + 10000

/-- getBracketLabel of src/pages/SpiceGoldAnalytics.tsx (lines 101-221).
The source consists of a block of early returns guarded by
period === daily, a second block guarded by
period === weekly || monthly || overall, and a final Elite Tier return;
the match below renders the same control flow (for daily only the first
block can return, for the other periods only the second). -/
def getBracketLabel (fromRange : Int) (toRange : Option JsNum)
    (period : TimePeriod) : BracketInfo :=
  let max := bracketLabelMax fromRange toRange
  match period with
  | .daily =>
    if max ≤ 50 then
      ⟨"Dormant / New", "游린", "Barely engaged or newly joined users"⟩
    else if max ≤ 100 then
      ⟨"Low Activity", "游릵", "Lightly active; minimal gameplay"⟩
    else if max ≤ 400 then
      ⟨"Moderate Activity", "游댯", "Casual players with steady activity"⟩
    else if max ≤ 700 then
      ⟨"High Activity", "游리", "Consistent users engaging daily"⟩
    else if max ≤ 1000 then
      ⟨"Top Daily Performer", "游릭", "Fully active users hitting daily cap"⟩
    else
      ⟨"Elite Tier", "游녬", "Top performers with exceptional engagement"⟩
  | _ =>
    if max ≤ 50 then
      ⟨"Dormant / New", "游린", "Barely engaged or newly joined users"⟩
    else if max ≤ 100 then
      ⟨"Low Activity", "游릵", "Lightly active users; small daily actions"⟩
    else if max ≤ 400 then
      ⟨"Moderate Activity", "游댯",
        "Casual players showing consistent participation"⟩
    else if max ≤ 700 then
      ⟨"High Activity", "游리", "Active users engaging regularly"⟩
    else if max ≤ 1000 then
      ⟨"Top Daily Performer", "游릭", "Fully active users nearing daily cap"⟩
    else if max ≤ 4000 then
      ⟨"Consistent User", "游댯",
        "Users maintaining steady activity over multiple days"⟩
    else if max ≤ 7000 then
      ⟨"Engaged User", "游", "Regular, retained players engaging weekly"⟩
    else if max ≤ 15000 then
      ⟨"High Retention User", "游릮",
        "Strongly retained users with multi-week engagement"⟩
    else if max ≤ 23000 then
      ⟨"Core Loyal User", "游릭", "Power players; actively earning daily"⟩
    else if max ≤ 31000 then
      ⟨"Top Monthly Performer", "游끤", "Maxed-out or near-max monthly users"⟩
    else if max ≤ 62000 then
      ⟨"Elite / Long-Term Loyalist", "游눑",
        "Users active across months; consistently re-engage"⟩
    else if max ≤ 93000 then
      ⟨"Legacy Tier / Ultra Engaged", "游녬",
        "Top 1-2% of users - highest loyalty"⟩
    else
      ⟨"Elite Tier", "游녬", "Top performers with exceptional engagement"⟩

/-- One raw range entry of the backend payload: both bounds are decimal
strings and the user count is a number.  An absent reward_to_range field
is embedded as the empty string, which the modelled code treats
identically (both are falsy, and the merge key appends `to || ""`). -/
structure RangeData where
  reward_from_range : String
  reward_to_range : String
  total_users : Int
deriving DecidableEq, Repr

/-- Decimal value of the leading digit characters, or none when the
first character is not a digit (the NaN case of parseInt). -/
def digitsVal (l : List Char) : Option Nat :=
  let d := l.takeWhile Char.isDigit
  if d.isEmpty then none
  else some (d.foldl (fun a c => a * 10 + (c.toNat - 48)) 0)

/-- JavaScript parseInt with base 10 on the modelled inputs: skip
leading whitespace, read an optional sign, then the leading digit run;
none models NaN.  (The hexadecimal autodetection of parseInt is not
modelled; no modelled input carries a 0x prefix.) -/
def jsParseInt (s : String) : Option Int :=
  let l := s.data.dropWhile (fun c => c = ' ' ∨ c = '\t' ∨ c = '\n' ∨ c = '\r')
  match l with
  | '-' :: rest => (digitsVal rest).map (fun n => -(n : Int))
  | '+' :: rest => (digitsVal rest).map (fun n => (n : Int))
  | _ => (digitsVal l).map (fun n => (n : Int))

/-- The JavaScript expression `parseInt(s) || 0`: NaN falls back to 0,
and a parsed 0 stays 0. -/
def parseIntOr0 (s : String) : Int :=
  (jsParseInt s).getD 0

/-- One element of the chartData array built by
src/pages/SpiceGoldAnalytics.tsx.  The percentage holds the numeric
value after the toFixed(1)/parseFloat round trip, modelled as exact
rational rounding to one decimal. -/
structure ChartRow where
  name : String
  displayName : String
  bracketLabel : String
  bracketEmoji : String
  bracketInsight : String
  users : Int
  percentage : ℚ
  color : String
  fromRange : Int
  toRange : Option JsNum
deriving DecidableEq, Repr

/-- Rounding to one decimal digit, modelling toFixed(1) followed by
parseFloat on the small magnitudes that occur here. -/
def round1 (q : ℚ) : ℚ :=
  (round (q * 10) : ℚ) / 10

/-- JavaScript String.prototype.trim on the modelled inputs: drop
ASCII whitespace from both ends. -/
def jsTrim (s : String) : String :=
  String.mk
    (((s.data.dropWhile Char.isWhitespace).reverse.dropWhile
      Char.isWhitespace).reverse)

/-- The `const toRange` line of the chartData map callback
(src/pages/SpiceGoldAnalytics.tsx lines 295-298):
`item.reward_to_range && item.reward_to_range.trim() ? parseInt(item.reward_to_range) : null`.
The result is null (none) when reward_to_range is empty or
whitespace-only, NaN when it is non-empty but has no leading digits,
and the parsed integer otherwise. -/
def parseToRange (item : RangeData) : Option JsNum :=
  if item.reward_to_range ≠ "" ∧ jsTrim item.reward_to_range ≠ "" then
    some (match jsParseInt item.reward_to_range with
      | some n => JsNum.int n
      | none => JsNum.nan)
  else none

/-- The rangeName construction (lines 300-305): a dash-joined pair when
toRange is a real number, the open-ended form otherwise
(`if (toRange !== null && !isNaN(toRange))`). -/
def rangeNameOf (fromRange : Int) (toRange : Option JsNum) : String :=
  match toRange with
  | some (JsNum.int n) => toString fromRange ++ "-" ++ toString n
  | _ => toString fromRange ++ "+"

/-- The percentage denominator `analyticsData?.data?.total_users || 1`:
an absent or zero total falls back to 1. -/
def totalUsersOr1 (total_users : Option Int) : Int :=
  match total_users with
  | some t => if t = 0 then 1 else t
  | none => 1

/-- The body of the chartData map callback of
src/pages/SpiceGoldAnalytics.tsx (lines 293-325), for one range entry:
parse the bounds, build the display name, classify the bracket and
compute the share of total users. -/
def chartRowOf (period : TimePeriod) (total_users : Option Int)
    (item : RangeData) : ChartRow :=
  { name := rangeNameOf (parseIntOr0 item.reward_from_range) (parseToRange item)
  , displayName :=
      " " ++ rangeNameOf (parseIntOr0 item.reward_from_range) (parseToRange item)
        ++ " SG"
  , bracketLabel :=
      (getBracketLabel (parseIntOr0 item.reward_from_range) (parseToRange item)
        period).label
  , bracketEmoji :=
      (getBracketLabel (parseIntOr0 item.reward_from_range) (parseToRange item)
        period).emoji ++ " "
  , bracketInsight :=
      (getBracketLabel (parseIntOr0 item.reward_from_range) (parseToRange item)
        period).insight
  , users := item.total_users
  , percentage :=
      round1 (((item.total_users : ℚ) / (totalUsersOr1 total_users : ℚ)) * 100)
  , color :=
      getBracketColor (parseIntOr0 item.reward_from_range) (parseToRange item)
        period
  , fromRange := parseIntOr0 item.reward_from_range
  , toRange := parseToRange item }

/-- The chartData pipeline of src/pages/SpiceGoldAnalytics.tsx
(lines 284-325): drop null entries, keep every entry for the overall
period and only entries with positive total_users otherwise, then map
each survivor through the row constructor.  The source filter-then-map
pair is rendered as one filterMap. -/
def chartDataOf (period : TimePeriod) (ranges : List (Option RangeData))
    (total_users : Option Int) : List ChartRow :=
  ranges.filterMap (fun item =>
    match item with
    | none => none
    | some it =>
      if period = .overall ∨ it.total_users > 0 then
        some (chartRowOf period total_users it)
      else none)

/-- One per-date entry of a nested-by-date response.  ranges is none
when the field is absent or not an array (the source checks
`dateData.ranges && Array.isArray(dateData.ranges)` before using it). -/
structure WeeklyDateData where
  date : String
  unique_users : Option Int
  ranges : Option (List RangeData)
deriving DecidableEq, Repr

/-- The aggregated object of the combined daily+aggregated shape. -/
structure AggregatedData where
  unique_users : Int
  totalSg : Int
  averageSg : Int
  ranges : List RangeData
deriving DecidableEq, Repr

/-- The dynamic shapes of rawResponse.data that the normalizer
distinguishes: an object with both a daily and an aggregated field, an
array (of per-date entries; a flat array is an array of entries whose
ranges field is absent), an object with total_users and ranges, a
null/undefined value, and any other object. -/
inductive RawData where
  | combinedObj (daily : List WeeklyDateData) (aggregated : AggregatedData)
  | arrayData (entries : List WeeklyDateData)
  | standardObj (total_users : Int) (ranges : List RangeData)
  | nullData
  | otherObj
deriving DecidableEq, Repr

/-- The JSON envelope common to all endpoints. -/
structure RawResponse where
  code : Int
  data : RawData
  message : String
deriving DecidableEq, Repr

/-- The data part of the NormalizedSpiceGoldData result.  Every field is
optional because the overall branch returns the payload through an
unchecked cast, on which any of these fields may be absent (none). -/
structure NormalizedData where
  total_users : Option Int
  ranges : Option (List RangeData)
  weeklyBreakdown : Option (List WeeklyDateData)
  unique_users : Option Int
  totalSg : Option Int
  averageSg : Option Int
deriving DecidableEq, Repr

/-- The normalized response returned by the useSpiceGoldAnalytics query
function of src/hooks/useAnalytics.ts. -/
structure NormalizedResponse where
  code : Int
  data : NormalizedData
  message : String
deriving DecidableEq, Repr

/-- The JS Map of the aggregation branches, as an insertion-ordered
association list from merge key to accumulated user count. -/
abbrev RangeMap := List (String × Int)

/-- Map.prototype.get, returning undefined (none) for an absent key. -/
def mapGet (m : RangeMap) (k : String) : Option Int :=
  (m.find? (fun e => e.1 == k)).map (fun e => e.2)

/-- Map.prototype.set: overwrite the entry holding the key in place, or
append a new entry at the end (JS Maps preserve insertion order). -/
def mapSet : RangeMap → String → Int → RangeMap
  | [], k, v => [(k, v)]
  | e :: rest, k, v =>
    if e.1 == k then (k, v) :: rest else e :: mapSet rest k v

/-- The merge key of one range entry:
`${reward_from_range}__${reward_to_range || ""}`.  On strings the
`|| ""` coalescing is the identity (the empty string maps to itself), so
the key is a plain double-underscore concatenation. -/
def rangeKey (r : RangeData) : String :=
  r.reward_from_range ++ "__" ++ r.reward_to_range

/-- One step of the nested-by-date aggregation:
`rangeMap.set(key, (rangeMap.get(key) || 0) + range.total_users)`. -/
def insertRange (m : RangeMap) (r : RangeData) : RangeMap :=
  mapSet m (rangeKey r) ((mapGet m (rangeKey r)).getD 0 + r.total_users)

/-- The per-date step of the aggregation loop: entries whose ranges
field is absent (or not an array) are skipped. -/
def stepEntry (m : RangeMap) (e : WeeklyDateData) : RangeMap :=
  match e.ranges with
  | some rs => rs.foldl insertRange m
  | none => m

/-- The rangeMap built by the forEach loops of the daily, weekly and
monthly branches (the three branches are textually identical). -/
def buildRangeMap (entries : List WeeklyDateData) : RangeMap :=
  entries.foldl stepEntry []

/-- Split a character list at the first occurrence of the two-character
separator; returns the part before it and everything after it.
This computes elements 0 and 1 of JavaScript split("__"): element 0 is
the text before the first occurrence, and element 1 (extracted by
jsSplit01 below) is the text between the first and second occurrences. -/
def splitFirstSep : List Char → Option (List Char × List Char)
  | [] => none
  | [_] => none
  | c₁ :: c₂ :: rest =>
    if c₁ = '_' ∧ c₂ = '_' then some ([], rest)
    else
      match splitFirstSep (c₂ :: rest) with
      | some (a, b) => some (c₁ :: a, b)
      | none => none

/-- `const [from, to] = rangeKey.split("__")`: elements 0 and 1 of the
split; a missing element 1 is undefined and the subsequent `to || ""`
coalesces it to the empty string, which is applied here directly. -/
def jsSplit01 (s : String) : String × String :=
  match splitFirstSep s.data with
  | none => (s, "")
  | some (a, b) =>
    match splitFirstSep b with
    | none => (String.mk a, String.mk b)
    | some (c, _) => (String.mk a, String.mk c)

/-- Rebuild a RangeData from one rangeMap entry by splitting the key
back into its two bounds (`from || ""` and `to || ""` are identities on
the split results). -/
def keyToRange (e : String × Int) : RangeData :=
  { reward_from_range := (jsSplit01 e.1).1
  , reward_to_range := (jsSplit01 e.1).2
  , total_users := e.2 }

/-- The sort order of the aggregated ranges: the comparator
`(a, b) => (parseInt(a.reward_from_range) || 0) - (parseInt(b.reward_from_range) || 0)`
orders by the parsed lower bound; JS engines sort stably. -/
def fromLe (a b : RangeData) : Prop :=
  parseIntOr0 a.reward_from_range ≤ parseIntOr0 b.reward_from_range

instance : DecidableRel fromLe :=
  fun a b => inferInstanceAs (Decidable (_ ≤ _))

instance : IsTotal RangeData fromLe :=
  ⟨fun a b => Int.le_total _ _⟩

instance : IsTrans RangeData fromLe :=
  ⟨fun _ _ _ hab hbc => le_trans hab hbc⟩

/-- The aggregatedRanges array of the daily/weekly/monthly branches:
map entries in insertion order, rebuilt into range records and sorted
stably by parsed lower bound (insertion sort is a stable sort, matching
the stable Array.prototype.sort). -/
def aggregatedRangesOf (entries : List WeeklyDateData) : List RangeData :=
  ((buildRangeMap entries).map keyToRange).insertionSort fromLe

/-- The totalUsers reduce of the daily/weekly/monthly branches:
`aggregatedRanges.reduce((sum, range) => sum + range.total_users, 0)`. -/
def totalUsersOf (entries : List WeeklyDateData) : Int :=
  (aggregatedRangesOf entries).foldl (fun s r => s + r.total_users) 0

/-- `result as StandardResponse`: a TypeScript cast performs no runtime
conversion, so the observable normalized fields are exactly those
present on the value (none when absent).  Only the standard shape
carries total_users and ranges. -/
def verbatimStandard : RawData → NormalizedData
  | .standardObj tu rs => ⟨some tu, some rs, none, none, none, none⟩
  | _ => ⟨none, none, none, none, none, none⟩

/-- The queryFn of useSpiceGoldAnalytics in src/hooks/useAnalytics.ts
(lines 143-395), after the JSON body has been received: reject a
non-200 envelope with `message || "Failed to fetch data"`; serve the
combined daily+aggregated shape first for every period; then aggregate
array data for the monthly, weekly and daily periods (throwing
"Invalid ... data format" when data is not an array); and return the
payload verbatim for the overall period. -/
def normalizeSpiceGold (timePeriod : TimePeriod) (result : RawResponse) :
    Except String NormalizedResponse :=
  if result.code ≠ 200 then
    .error (if result.message = "" then "Failed to fetch data" else result.message)
  else
    match result.data with
    | .combinedObj daily aggregated =>
      .ok ⟨result.code,
        ⟨some aggregated.unique_users, some aggregated.ranges, some daily,
          some aggregated.unique_users, some aggregated.totalSg,
          some aggregated.averageSg⟩,
        result.message⟩
    | d =>
      match timePeriod with
      | .monthly =>
        match d with
        | .arrayData entries =>
          .ok ⟨result.code,
            ⟨some (totalUsersOf entries), some (aggregatedRangesOf entries),
              some entries, none, none, none⟩,
            result.message⟩
        | _ => .error "Invalid monthly data format"
      | .weekly =>
        match d with
        | .arrayData entries =>
          .ok ⟨result.code,
            ⟨some (totalUsersOf entries), some (aggregatedRangesOf entries),
              some entries, none, none, none⟩,
            result.message⟩
        | _ => .error "Invalid weekly data format"
      | .daily =>
        match d with
        | .arrayData entries =>
          .ok ⟨result.code,
            ⟨some (totalUsersOf entries), some (aggregatedRangesOf entries),
              some entries, none, none, none⟩,
            result.message⟩
        | _ => .error "Invalid daily data format"
      | .overall =>
        .ok ⟨result.code, verbatimStandard d, result.message⟩

/-- All range entries of a nested-by-date payload, in iteration order
(entries without a ranges array contribute nothing). -/
def flatRanges : List WeeklyDateData → List RangeData
  | [] => []
  | e :: es => (e.ranges.getD []) ++ flatRanges es

/-- Sum of the user counts of the entries carrying one merge key. -/
def sumKeyed (k : String) (rs : List RangeData) : Int :=
  ((rs.filter (fun r => rangeKey r == k)).map (fun r => r.total_users)).sum

/-- Sum of the user counts of the entries carrying one
(reward_from_range, reward_to_range) pair, across all date entries. -/
def sumForPair (f t : String) (entries : List WeeklyDateData) : Int :=
  (((flatRanges entries).filter
      (fun r => r.reward_from_range == f && r.reward_to_range == t)).map
    (fun r => r.total_users)).sum

/-- Whether some date entry carries a range with the given pair. -/
def pairOccurs (f t : String) (entries : List WeeklyDateData) : Bool :=
  (flatRanges entries).any
    (fun r => r.reward_from_range == f && r.reward_to_range == t)

/-- A string made of decimal digits only (possibly empty), the form the
backend uses for range bounds. -/
def isDigitStr (s : String) : Bool :=
  s.data.all Char.isDigit

/-- One raw record of the page-traffic payload consumed by
src/pages/Analytics.tsx (the test_vs_result endpoint): per-page counts,
with the firstTime count present on the runtime data. -/
structure AnalyticsData where
  page : String
  totalUsers : Int
  old : Int
  new : Int
  firstTime : Int
deriving DecidableEq, Repr

/-- One element of the aggregatedByPage accumulator of
src/pages/Analytics.tsx (lines 442-464). -/
structure PageAgg where
  page : String
  totalUsers : Int
  old : Int
  new : Int
  firstTime : Int
deriving DecidableEq, Repr

/-- The legacy-alias rewrite applied before aggregation:
`item.page === "credential" ? "landing_page" : item.page`. -/
def normalizePage (p : String) : String :=
  if p = "credential" then "landing_page" else p

/-- In-place accumulation onto an existing aggregate entry:
`existing.totalUsers += item.totalUsers` and the three companions. -/
def bump (a : PageAgg) (i : AnalyticsData) : PageAgg :=
  { a with
    totalUsers := a.totalUsers + i.totalUsers
  , old := a.old + i.old
  , new := a.new + i.new
  , firstTime := a.firstTime + i.firstTime }

/-- The fresh entry pushed when no aggregate exists for the page yet. -/
def initAgg (np : String) (i : AnalyticsData) : PageAgg :=
  ⟨np, i.totalUsers, i.old, i.new, i.firstTime⟩

/-- Mutate the first accumulator entry carrying the page (the one that
`acc.find` returns) by accumulating the record onto it. -/
def updateFirst (np : String) (i : AnalyticsData) :
    List PageAgg → List PageAgg
  | [] => []
  | a :: rest =>
    if a.page == np then bump a i :: rest else a :: updateFirst np i rest

/-- One step of the aggregatedByPage reduce: rewrite the page alias,
then either accumulate onto the existing entry or push a new one. -/
def aggStep (acc : List PageAgg) (i : AnalyticsData) : List PageAgg :=
  let np := normalizePage i.page
  if (acc.find? (fun a => a.page == np)).isSome then updateFirst np i acc
  else acc ++ [initAgg np i]

/-- aggregatedByPage of src/pages/Analytics.tsx (lines 442-464): fold
the records in order into a first-seen-ordered list of per-page sums. -/
def aggregatedByPage (l : List AnalyticsData) : List PageAgg :=
  l.foldl aggStep []

/-- Componentwise sum, over the records whose normalized page equals
the given page, of one selected count. -/
def sumBy (l : List AnalyticsData) (q : String) (f : AnalyticsData → Int) : Int :=
  ((l.filter (fun i => normalizePage i.page == q)).map f).sum

/-- The numeric value of a JavaScript floating expression on the
modelled paths: a rational, NaN, or a signed infinity. -/
inductive JsFloat where
  | nan
  | inf
  | ninf
  | val (q : ℚ)
deriving DecidableEq, Repr

/-- JavaScript division on the reals: finite quotient for a non-zero
divisor, NaN for 0/0 and a signed infinity for x/0 with x non-zero. -/
def jsDivF (a b : ℚ) : JsFloat :=
  if b = 0 then (if a = 0 then .nan else if 0 < a then .inf else .ninf)
  else .val (a / b)

/-- Multiplication of a JavaScript float value by a non-zero positive
rational constant (only the constant 100 is used here). -/
def jsMulF (x : JsFloat) (c : ℚ) : JsFloat :=
  match x with
  | .val q => .val (q * c)
  | .nan => .nan
  | .inf => if c = 0 then .nan else if 0 < c then .inf else .ninf
  | .ninf => if c = 0 then .nan else if 0 < c then .ninf else .inf

/-- newUsersPercentage of src/pages/Analytics.tsx (lines 860-863):
`pageTotal > 0 ? ((item.new / pageTotal) * 100).toFixed(0) : "0"`.
The numeric value before toFixed formatting is modelled; the guarded
else branch produces the literal 0. -/
def newUsersPercentageVal (item : PageAgg) : JsFloat :=
  if item.totalUsers > 0 then
    jsMulF (jsDivF (item.new : ℚ) (item.totalUsers : ℚ)) 100
  else .val 0

/-- oldUsersPercentage of src/pages/Analytics.tsx (lines 864-867). -/
def oldUsersPercentageVal (item : PageAgg) : JsFloat :=
  if item.totalUsers > 0 then
    jsMulF (jsDivF (item.old : ℚ) (item.totalUsers : ℚ)) 100
  else .val 0

/-- firstTimeUsersPercentage of src/pages/Analytics.tsx (lines 868-871). -/
def firstTimeUsersPercentageVal (item : PageAgg) : JsFloat :=
  if item.totalUsers > 0 then
    jsMulF (jsDivF (item.firstTime : ℚ) (item.totalUsers : ℚ)) 100
  else .val 0

/-- overallTotalUsers of src/pages/Analytics.tsx (lines 487-490):
`aggregatedByPage.reduce((sum, item) => sum + item.totalUsers, 0)`. -/
def overallTotalUsersOf (agg : List PageAgg) : Int :=
  agg.foldl (fun s i => s + i.totalUsers) 0

/-- overallPagePercentage of src/pages/Analytics.tsx (lines 872-875):
`overallTotalUsers > 0 ? ((pageTotal / overallTotalUsers) * 100).toFixed(0) : "0"`. -/
def overallPagePercentageVal (item : PageAgg) (overallTotal : Int) : JsFloat :=
  if overallTotal > 0 then
    jsMulF (jsDivF (item.totalUsers : ℚ) (overallTotal : ℚ)) 100
  else .val 0

/-! ## Theorems -/

/-- Claim C4: getBracketColor is independent of the period for every
(fromRange, toRange) pair, and the color of the range (0, 50) is
"#ef4444" under every period. -/
theorem C4_color_period_independent :
    (∀ (f : Int) (t : Option JsNum) (p₁ p₂ : TimePeriod),
      getBracketColor f t p₁ = getBracketColor f t p₂)
    ∧ (∀ p : TimePeriod, getBracketColor 0 (some (JsNum.int 50)) p = "#ef4444") :=
  ⟨fun _ _ _ _ => rfl, fun _ => rfl⟩

/-- Claim C9: a present upper bound of 0 is falsy, so getBracketColor
substitutes the open-ended sentinel 100000 and returns the
above-all-thresholds default color "#1e293b" for every fromRange and
every period, not the "#ef4444" color of the 0-50 bracket. -/
theorem C9_zero_upper_bound_default_color :
    (∀ (f : Int) (p : TimePeriod),
      getBracketColor f (some (JsNum.int 0)) p = "#1e293b")
    ∧ bracketColorMax (some (JsNum.int 0)) = 100000
    ∧ "#1e293b" ≠ "#ef4444" :=
  ⟨fun _ _ => rfl, rfl, by decide⟩

/-- Claim C2: for a code-200 response whose data carries both a daily
array and an aggregated object, the normalizer takes its buckets from
aggregated.ranges, sets total_users (and unique_users) to
aggregated.unique_users even when that differs from the sum of the
range counts, and retains the daily array verbatim as the breakdown;
in particular unique_users = 120 over ranges summing to 115 yields
total_users = 120. -/
theorem C2_combined_shape :
    (∀ (p : TimePeriod) (daily : List WeeklyDateData) (agg : AggregatedData)
        (msg : String),
      normalizeSpiceGold p ⟨200, RawData.combinedObj daily agg, msg⟩
        = .ok ⟨200,
            ⟨some agg.unique_users, some agg.ranges, some daily,
              some agg.unique_users, some agg.totalSg, some agg.averageSg⟩,
            msg⟩)
    ∧ normalizeSpiceGold .weekly
        ⟨200,
          RawData.combinedObj []
            ⟨120, 0, 0, [⟨"0", "50", 100⟩, ⟨"51", "100", 15⟩]⟩,
          "ok"⟩
        = .ok ⟨200,
            ⟨some 120, some [⟨"0", "50", 100⟩, ⟨"51", "100", 15⟩], some [],
              some 120, some 0, some 0⟩,
            "ok"⟩
    ∧ (([⟨"0", "50", 100⟩, ⟨"51", "100", 15⟩] : List RangeData).map
        (fun r => r.total_users)).sum = 115
    ∧ (120 : Int) ≠ 115 := by
  refine ⟨fun p daily agg msg => rfl, rfl, by decide, by decide⟩

/-- Claim C5 counterexample: for the overall period a code-200 response
whose data is a bare empty array is returned verbatim through the
unchecked cast, so the result has no total_users and no ranges field at
all (none), not the empty snapshot with total_users = 0 and an empty
bucket list that the claim describes. -/
theorem C5_counterexample_overall_verbatim :
    normalizeSpiceGold .overall ⟨200, RawData.arrayData [], "ok"⟩
      = .ok ⟨200, ⟨none, none, none, none, none, none⟩, "ok"⟩
    ∧ (⟨none, none, none, none, none, none⟩ : NormalizedData).total_users
        ≠ some 0
    ∧ (⟨none, none, none, none, none, none⟩ : NormalizedData).ranges
        ≠ some [] :=
  ⟨rfl, by decide, by decide⟩

/-- Claim C5 amended: for the daily, weekly and monthly periods a
code-200 response whose data is a bare empty array yields an empty
snapshot (total_users = 0, ranges = [], empty breakdown) without
throwing; for the overall period the payload is passed through
verbatim, with no total_users or ranges fields, which the consuming
page coalesces to 0 and an empty list. -/
theorem C5_amended_shape_fallback :
    (∀ (p : TimePeriod) (msg : String),
      p = .daily ∨ p = .weekly ∨ p = .monthly →
      normalizeSpiceGold p ⟨200, RawData.arrayData [], msg⟩
        = .ok ⟨200, ⟨some 0, some [], some [], none, none, none⟩, msg⟩)
    ∧ (∀ msg : String,
      normalizeSpiceGold .overall ⟨200, RawData.arrayData [], msg⟩
        = .ok ⟨200, ⟨none, none, none, none, none, none⟩, msg⟩) := by
  constructor
  · rintro p msg (rfl | rfl | rfl) <;> rfl
  · intro msg; rfl

/-- Witness for the amended claim C5 at the weekly period. -/
theorem C5_amended_shape_fallback_witness :
    normalizeSpiceGold .weekly ⟨200, RawData.arrayData [], "ok"⟩
      = .ok ⟨200, ⟨some 0, some [], some [], none, none, none⟩, "ok"⟩ :=
  C5_amended_shape_fallback.1 .weekly "ok" (Or.inr (Or.inl rfl))

/-- Claim C10: getBracketLabel substitutes from + 10000 (not the 100000
sentinel of getBracketColor) for an absent upper bound; hence for the
daily period every open-ended bucket with fromRange at least 0 — and
any daily bucket whose effective upper bound exceeds 1000 — falls past
the daily threshold ladder and is labeled "Elite Tier".  The final
conjunct separates the two sentinels: with the 10000 substitute an
open-ended weekly bucket starting at 0 is labeled "High Retention
User", which the 100000 sentinel would label "Elite Tier". -/
theorem C10_label_substitute_and_elite :
    (∀ f : Int, bracketLabelMax f none = f + 10000)
    ∧ (∀ (f : Int) (t : Option JsNum), 1000 < bracketLabelMax f t →
        (getBracketLabel f t .daily).label = "Elite Tier")
    ∧ (∀ f : Int, 0 ≤ f → (getBracketLabel f none .daily).label = "Elite Tier")
    ∧ (getBracketLabel 0 none .weekly).label = "High Retention User" := by
  have key : ∀ (f : Int) (t : Option JsNum), 1000 < bracketLabelMax f t →
      (getBracketLabel f t .daily).label = "Elite Tier" := by
    intro f t h
    show (if bracketLabelMax f t ≤ 50 then
        (⟨"Dormant / New", "游린", "Barely engaged or newly joined users"⟩ :
          BracketInfo)
      else if bracketLabelMax f t ≤ 100 then
        ⟨"Low Activity", "游릵", "Lightly active; minimal gameplay"⟩
      else if bracketLabelMax f t ≤ 400 then
        ⟨"Moderate Activity", "游댯", "Casual players with steady activity"⟩
      else if bracketLabelMax f t ≤ 700 then
        ⟨"High Activity", "游리", "Consistent users engaging daily"⟩
      else if bracketLabelMax f t ≤ 1000 then
        ⟨"Top Daily Performer", "游릭", "Fully active users hitting daily cap"⟩
      else
        ⟨"Elite Tier", "游녬", "Top performers with exceptional engagement"⟩).label
      = "Elite Tier"
    rw [if_neg (by omega), if_neg (by omega), if_neg (by omega),
      if_neg (by omega), if_neg (by omega)]
  refine ⟨fun f => rfl, key, ?_, rfl⟩
  intro f hf
  exact key f none (by show 1000 < f + 10000; omega)

/-- Witness for claim C10: the hypotheses hold and the conclusions
evaluate at fromRange 0 with an absent bound and with the bound 5000. -/
theorem C10_label_substitute_and_elite_witness :
    ((1000 : Int) < bracketLabelMax 0 (some (JsNum.int 5000))
      ∧ (getBracketLabel 0 (some (JsNum.int 5000)) .daily).label = "Elite Tier")
    ∧ ((0 : Int) ≤ 0 ∧ (getBracketLabel 0 none .daily).label = "Elite Tier") :=
  ⟨⟨by decide, C10_label_substitute_and_elite.2.1 0 (some (JsNum.int 5000))
      (by decide)⟩,
    ⟨by decide, C10_label_substitute_and_elite.2.2.1 0 (by decide)⟩⟩

/-- Claim C7: on the aggregated per-page records the derived percentage
fields are guarded, so a record whose totalUsers is 0 yields the value
0 for the new, old and firstTime percentages (never NaN), and a zero
overall total yields 0 for the per-page share. -/
theorem C7_zero_denominator_percentages :
    ∀ (item : PageAgg) (agg : List PageAgg),
      item.totalUsers = 0 →
      newUsersPercentageVal item = .val 0
      ∧ oldUsersPercentageVal item = .val 0
      ∧ firstTimeUsersPercentageVal item = .val 0
      ∧ (overallTotalUsersOf agg = 0 →
          overallPagePercentageVal item (overallTotalUsersOf agg) = .val 0)
      ∧ newUsersPercentageVal item ≠ JsFloat.nan := by
  intro item agg h
  have hng : ¬ (item.totalUsers > 0) := by omega
  have h1 : newUsersPercentageVal item = .val 0 := by
    simp [newUsersPercentageVal, hng]
  refine ⟨h1, ?_, ?_, ?_, ?_⟩
  · simp [oldUsersPercentageVal, hng]
  · simp [firstTimeUsersPercentageVal, hng]
  · intro hov
    rw [hov]
    simp [overallPagePercentageVal]
  · rw [h1]
    simp

/-- Witness for claim C7 at a record with totalUsers 0 and non-zero
sub-counts. -/
theorem C7_zero_denominator_percentages_witness :
    (⟨"landing_page", 0, 2, 3, 4⟩ : PageAgg).totalUsers = 0
    ∧ newUsersPercentageVal ⟨"landing_page", 0, 2, 3, 4⟩ = .val 0
    ∧ oldUsersPercentageVal ⟨"landing_page", 0, 2, 3, 4⟩ = .val 0
    ∧ firstTimeUsersPercentageVal ⟨"landing_page", 0, 2, 3, 4⟩ = .val 0 := by
  have h := C7_zero_denominator_percentages ⟨"landing_page", 0, 2, 3, 4⟩ []
    (by decide)
  exact ⟨by decide, h.1, h.2.1, h.2.2.1⟩

/-- chartDataOf on the empty list. -/
theorem chartDataOf_nil (p : TimePeriod) (tot : Option Int) :
    chartDataOf p [] tot = [] := rfl

/-- chartDataOf drops a null entry. -/
theorem chartDataOf_cons_none (p : TimePeriod) (rs : List (Option RangeData))
    (tot : Option Int) :
    chartDataOf p (none :: rs) tot = chartDataOf p rs tot := rfl

/-- chartDataOf on a real entry: keep it for the overall period or a
positive user count, drop it otherwise. -/
theorem chartDataOf_cons_some (p : TimePeriod) (it : RangeData)
    (rs : List (Option RangeData)) (tot : Option Int) :
    chartDataOf p (some it :: rs) tot
      = if p = .overall ∨ it.total_users > 0 then
          chartRowOf p tot it :: chartDataOf p rs tot
        else chartDataOf p rs tot := by
  by_cases h : p = .overall ∨ it.total_users > 0
  · rw [if_pos h]
    simp only [chartDataOf, List.filterMap_cons]
    rw [if_pos h]
  · rw [if_neg h]
    simp only [chartDataOf, List.filterMap_cons]
    rw [if_neg h]

/-- Claim C8: the chartData pipeline keeps every (non-null) bucket for
the overall period, zero-user buckets included, and for every other
period drops exactly the buckets whose total_users is not positive
before mapping to display rows. -/
theorem C8_zero_bucket_filtering :
    ∀ (p : TimePeriod) (rs : List (Option RangeData)) (tot : Option Int),
      chartDataOf p rs tot
        = (if p = .overall then rs.filterMap id
            else (rs.filterMap id).filter (fun r => r.total_users > 0)).map
            (chartRowOf p tot) := by
  intro p rs tot
  induction rs with
  | nil => by_cases hov : p = .overall <;> simp [chartDataOf_nil, hov]
  | cons a as ih =>
    by_cases hov : p = .overall
    · cases a with
      | none => simpa [chartDataOf_cons_none, hov] using ih
      | some it =>
        rw [chartDataOf_cons_some, if_pos (Or.inl hov), ih]
        simp [hov]
    · cases a with
      | none => simpa [chartDataOf_cons_none, hov] using ih
      | some it =>
        by_cases hu : it.total_users > 0
        · rw [chartDataOf_cons_some, if_pos (Or.inr hu), ih]
          simp [hov, hu]
        · rw [chartDataOf_cons_some,
            if_neg (by rintro (h | h); exact hov h; exact hu h), ih]
          simp [hov, hu]

/-- Claim C3 counterexample: the non-numeric upper bound "abc" passes
the truthiness guard and parseInt yields NaN, so the parsed toRange is
NaN, not null as the claim states. -/
theorem C3_counterexample_nonnumeric_is_nan :
    (chartRowOf .overall (some 10) ⟨"0", "abc", 5⟩).toRange = some JsNum.nan
    ∧ (chartRowOf .overall (some 10) ⟨"0", "abc", 5⟩).toRange ≠ none := by
  constructor
  · decide
  · decide

/-- Claim C3 amended: an empty, missing or whitespace-only upper bound
parses to toRange = null (none); a non-empty, non-numeric upper bound
such as "abc" parses to NaN instead of null, and the NaN bound is then
treated exactly like an open-ended one by the range name, the color and
the label (NaN is falsy in both effective-bound computations); no error
is raised in either case. -/
theorem C3_amended_open_ended_parsing :
    ∀ (p : TimePeriod) (tot : Option Int) (item : RangeData),
      (jsTrim item.reward_to_range = "" →
        (chartRowOf p tot item).toRange = none)
      ∧ (item.reward_to_range ≠ "" → jsTrim item.reward_to_range ≠ "" →
          jsParseInt item.reward_to_range = none →
          (chartRowOf p tot item).toRange = some JsNum.nan
          ∧ (chartRowOf p tot item).name
              = toString (parseIntOr0 item.reward_from_range) ++ "+"
          ∧ (chartRowOf p tot item).color
              = getBracketColor (parseIntOr0 item.reward_from_range) none p
          ∧ (chartRowOf p tot item).bracketLabel
              = (getBracketLabel (parseIntOr0 item.reward_from_range) none p).label) := by
  intro p tot item
  constructor
  · intro h
    show parseToRange item = none
    unfold parseToRange
    rw [if_neg (fun hc => hc.2 h)]
  · intro h1 h2 h3
    have ht : parseToRange item = some JsNum.nan := by
      unfold parseToRange
      rw [if_pos ⟨h1, h2⟩, h3]
    refine ⟨ht, ?_, ?_, ?_⟩
    · show rangeNameOf (parseIntOr0 item.reward_from_range) (parseToRange item) = _
      rw [ht]
      rfl
    · show getBracketColor (parseIntOr0 item.reward_from_range)
          (parseToRange item) p = _
      rw [ht]
      rfl
    · show (getBracketLabel (parseIntOr0 item.reward_from_range)
          (parseToRange item) p).label = _
      rw [ht]
      rfl

/-- Witness for the amended claim C3: a whitespace bound yields null, a
non-numeric bound yields NaN and the open-ended name, color and label. -/
theorem C3_amended_open_ended_parsing_witness :
    (chartRowOf .daily none ⟨"0", " ", 3⟩).toRange = none
    ∧ ((chartRowOf .daily none ⟨"1001", "abc", 3⟩).toRange = some JsNum.nan
      ∧ (chartRowOf .daily none ⟨"1001", "abc", 3⟩).name
          = toString (parseIntOr0 "1001") ++ "+"
      ∧ (chartRowOf .daily none ⟨"1001", "abc", 3⟩).color
          = getBracketColor (parseIntOr0 "1001") none .daily
      ∧ (chartRowOf .daily none ⟨"1001", "abc", 3⟩).bracketLabel
          = (getBracketLabel (parseIntOr0 "1001") none .daily).label) :=
  ⟨(C3_amended_open_ended_parsing .daily none ⟨"0", " ", 3⟩).1 (by decide),
    (C3_amended_open_ended_parsing .daily none ⟨"1001", "abc", 3⟩).2
      (by decide) (by decide) (by decide)⟩

/-- Bumping an aggregate entry does not change its page. -/
theorem bump_page (a : PageAgg) (i : AnalyticsData) : (bump a i).page = a.page :=
  rfl

/-- updateFirst leaves the page column unchanged. -/
theorem updateFirst_map_page (np : String) (i : AnalyticsData) :
    ∀ acc : List PageAgg,
      (updateFirst np i acc).map (fun a => a.page) = acc.map (fun a => a.page)
  | [] => rfl
  | a :: rest => by
    by_cases h : a.page == np
    · simp [updateFirst, h, bump]
    · simp [updateFirst, h, updateFirst_map_page np i rest]

/-- Looking up a page other than the updated one is unaffected by
updateFirst. -/
theorem find?_updateFirst_ne (np : String) (i : AnalyticsData) (q : String)
    (hq : q ≠ np) :
    ∀ acc : List PageAgg,
      (updateFirst np i acc).find? (fun a => a.page == q)
        = acc.find? (fun a => a.page == q)
  | [] => rfl
  | a :: rest => by
    by_cases h : a.page == np
    · have ha : a.page = np := by simpa using h
      have : ((bump a i).page == q) = false := by
        simp [bump_page, ha, Ne.symm hq]
      have ha2 : (a.page == q) = false := by simp [ha, Ne.symm hq]
      simp [updateFirst, h, List.find?_cons, this, ha2]
    · by_cases h2 : a.page == q
      · simp [updateFirst, h, List.find?_cons, h2]
      · simp [updateFirst, h, List.find?_cons, h2,
          find?_updateFirst_ne np i q hq rest]

/-- Looking up the updated page after updateFirst returns the bumped
first match. -/
theorem find?_updateFirst_self (np : String) (i : AnalyticsData) :
    ∀ acc : List PageAgg,
      (updateFirst np i acc).find? (fun a => a.page == np)
        = (acc.find? (fun a => a.page == np)).map (fun a => bump a i)
  | [] => rfl
  | a :: rest => by
    by_cases h : a.page == np
    · have hb : ((bump a i).page == np) = true := by
        simpa [bump_page] using h
      simp [updateFirst, h, List.find?_cons, hb]
    · simp [updateFirst, h, List.find?_cons, find?_updateFirst_self np i rest]

/-- sumBy on the empty record list. -/
theorem sumBy_nil (q : String) (f : AnalyticsData → Int) : sumBy [] q f = 0 :=
  rfl

/-- sumBy counts a record whose normalized page matches. -/
theorem sumBy_cons_eq {i : AnalyticsData} {q : String}
    (h : normalizePage i.page = q) (l : List AnalyticsData)
    (f : AnalyticsData → Int) :
    sumBy (i :: l) q f = f i + sumBy l q f := by
  simp [sumBy, h]

/-- sumBy skips a record whose normalized page differs. -/
theorem sumBy_cons_ne {i : AnalyticsData} {q : String}
    (h : normalizePage i.page ≠ q) (l : List AnalyticsData)
    (f : AnalyticsData → Int) :
    sumBy (i :: l) q f = sumBy l q f := by
  simp [sumBy, h]

/-- Folding records onto an accumulator that already holds an entry for
the page accumulates exactly the componentwise sums of the matching
records onto that entry. -/
theorem aggFold_find?_of_found :
    ∀ (l : List AnalyticsData) (acc : List PageAgg) (q : String) (e : PageAgg),
      acc.find? (fun a => a.page == q) = some e →
      (l.foldl aggStep acc).find? (fun a => a.page == q)
        = some ⟨e.page, e.totalUsers + sumBy l q (fun i => i.totalUsers),
            e.old + sumBy l q (fun i => i.old),
            e.new + sumBy l q (fun i => i.new),
            e.firstTime + sumBy l q (fun i => i.firstTime)⟩
  | [], acc, q, e => by
    intro h
    simpa [sumBy_nil] using h
  | i :: l, acc, q, e => by
    intro h
    by_cases hq : normalizePage i.page = q
    · have hsome : (acc.find? (fun a => a.page == normalizePage i.page)).isSome := by
        rw [hq, h]; rfl
      have hstep : aggStep acc i = updateFirst (normalizePage i.page) i acc := by
        simp [aggStep, hsome]
      have hfind :
          (updateFirst (normalizePage i.page) i acc).find?
            (fun a => a.page == q) = some (bump e i) := by
        rw [hq, find?_updateFirst_self, h]; rfl
      have := aggFold_find?_of_found l
        (updateFirst (normalizePage i.page) i acc) q (bump e i) hfind
      rw [List.foldl_cons, hstep, this]
      simp only [bump, sumBy_cons_eq hq]
      refine congrArg some ?_
      refine PageAgg.mk.injEq .. |>.mpr ?_
      refine ⟨rfl, by omega, by omega, by omega, by omega⟩
    · have hne : q ≠ normalizePage i.page := fun hh => hq hh.symm
      have hstep :
          (aggStep acc i).find? (fun a => a.page == q)
            = acc.find? (fun a => a.page == q) := by
        by_cases hsome : (acc.find? (fun a => a.page == normalizePage i.page)).isSome
        · simp only [aggStep, hsome, if_true]
          exact find?_updateFirst_ne (normalizePage i.page) i q hne acc
        · have hs : (acc.find? (fun a => a.page == normalizePage i.page)).isSome
              = false := by simpa using hsome
          simp only [aggStep, hs, Bool.false_eq_true, if_false]
          rw [List.find?_append]
          have : ((initAgg (normalizePage i.page) i).page == q) = false := by
            simp [initAgg, Ne.symm hne]
          simp [List.find?_cons, this]
      have := aggFold_find?_of_found l (aggStep acc i) q e (hstep.trans h)
      rw [List.foldl_cons, this, sumBy_cons_ne hq, sumBy_cons_ne hq,
        sumBy_cons_ne hq, sumBy_cons_ne hq]

/-- Folding records onto an accumulator without an entry for the page
creates exactly one entry holding the componentwise sums of the
matching records, and no entry when no record matches. -/
theorem aggFold_find?_of_none :
    ∀ (l : List AnalyticsData) (acc : List PageAgg) (q : String),
      acc.find? (fun a => a.page == q) = none →
      (l.foldl aggStep acc).find? (fun a => a.page == q)
        = if l.any (fun i => normalizePage i.page == q) then
            some ⟨q, sumBy l q (fun i => i.totalUsers),
              sumBy l q (fun i => i.old), sumBy l q (fun i => i.new),
              sumBy l q (fun i => i.firstTime)⟩
          else none
  | [], acc, q => by
    intro h
    simpa using h
  | i :: l, acc, q => by
    intro h
    by_cases hq : normalizePage i.page = q
    · have hnone : acc.find? (fun a => a.page == normalizePage i.page) = none := by
        rw [hq]; exact h
      have hstep : aggStep acc i = acc ++ [initAgg (normalizePage i.page) i] := by
        simp [aggStep, hnone]
      have hfind :
          (acc ++ [initAgg (normalizePage i.page) i]).find?
            (fun a => a.page == q) = some (initAgg (normalizePage i.page) i) := by
        rw [List.find?_append, h]
        have : ((initAgg (normalizePage i.page) i).page == q) = true := by
          simp [initAgg, hq]
        simp [List.find?_cons, this]
      have := aggFold_find?_of_found l (acc ++ [initAgg (normalizePage i.page) i])
        q (initAgg (normalizePage i.page) i) hfind
      rw [List.foldl_cons, hstep, this]
      have hany : (i :: l).any (fun j => normalizePage j.page == q) = true := by
        simp [List.any_cons, hq]
      rw [hany, if_pos rfl]
      simp only [initAgg, sumBy_cons_eq hq]
      rw [hq]
    · have hne : q ≠ normalizePage i.page := fun hh => hq hh.symm
      have hstep :
          (aggStep acc i).find? (fun a => a.page == q)
            = acc.find? (fun a => a.page == q) := by
        by_cases hsome : (acc.find? (fun a => a.page == normalizePage i.page)).isSome
        · simp only [aggStep, hsome, if_true]
          exact find?_updateFirst_ne (normalizePage i.page) i q hne acc
        · have hs : (acc.find? (fun a => a.page == normalizePage i.page)).isSome
              = false := by simpa using hsome
          simp only [aggStep, hs, Bool.false_eq_true, if_false]
          rw [List.find?_append]
          have : ((initAgg (normalizePage i.page) i).page == q) = false := by
            simp [initAgg, Ne.symm hne]
          simp [List.find?_cons, this]
      have := aggFold_find?_of_none l (aggStep acc i) q (hstep.trans h)
      rw [List.foldl_cons, this, sumBy_cons_ne hq, sumBy_cons_ne hq,
        sumBy_cons_ne hq, sumBy_cons_ne hq]
      have hany : ((i :: l).any (fun j => normalizePage j.page == q))
          = l.any (fun j => normalizePage j.page == q) := by
        simp [List.any_cons, hq]
      rw [hany]

/-- One aggregation step keeps the page column duplicate-free. -/
theorem pages_nodup_aggStep (acc : List PageAgg) (i : AnalyticsData)
    (h : (acc.map (fun a => a.page)).Nodup) :
    ((aggStep acc i).map (fun a => a.page)).Nodup := by
  by_cases hsome : (acc.find? (fun a => a.page == normalizePage i.page)).isSome
  · simpa [aggStep, hsome, updateFirst_map_page] using h
  · have hs : (acc.find? (fun a => a.page == normalizePage i.page)).isSome
        = false := by simpa using hsome
    have hnone : acc.find? (fun a => a.page == normalizePage i.page) = none :=
      Option.not_isSome_iff_eq_none.mp (by simp [hs])
    have hnotmem : normalizePage i.page ∉ acc.map (fun a => a.page) := by
      intro hmem
      obtain ⟨a, ha, hpage⟩ := List.mem_map.mp hmem
      have := List.find?_eq_none.mp hnone a ha
      simp [hpage] at this
    simp only [aggStep, hs, Bool.false_eq_true, if_false, List.map_append]
    simp [List.nodup_append, h, initAgg]
    intro a ha hpage
    exact hnotmem (hpage ▸ List.mem_map.mpr ⟨a, ha, rfl⟩)

/-- The whole fold keeps the page column duplicate-free. -/
theorem pages_nodup_foldl :
    ∀ (l : List AnalyticsData) (acc : List PageAgg),
      (acc.map (fun a => a.page)).Nodup →
      ((l.foldl aggStep acc).map (fun a => a.page)).Nodup
  | [], _, h => h
  | i :: l, acc, h =>
    pages_nodup_foldl l (aggStep acc i) (pages_nodup_aggStep acc i h)

/-- With a duplicate-free page column, filtering for one page returns
exactly the first (hence only) match. -/
theorem filter_eq_find?_toList :
    ∀ (l : List PageAgg) (q : String),
      (l.map (fun a => a.page)).Nodup →
      l.filter (fun a => a.page == q) = (l.find? (fun a => a.page == q)).toList
  | [], _, _ => rfl
  | a :: rest, q, h => by
    have hrest : (rest.map (fun x => x.page)).Nodup := (List.nodup_cons.mp h).2
    have hnot : a.page ∉ rest.map (fun x => x.page) := (List.nodup_cons.mp h).1
    by_cases ha : a.page == q
    · have haq : a.page = q := by simpa using ha
      have hempty : rest.filter (fun x => x.page == q) = [] := by
        refine List.filter_eq_nil_iff.mpr ?_
        intro b hb
        have : b.page ≠ q := by
          intro hbq
          exact hnot (haq ▸ hbq ▸ List.mem_map.mpr ⟨b, hb, rfl⟩)
        simp [this]
      simp [List.filter_cons, List.find?_cons, ha, hempty]
    · simp [List.filter_cons, List.find?_cons, ha,
        filter_eq_find?_toList rest q hrest]

/-- The alias rewrite never outputs the legacy name. -/
theorem normalizePage_ne_credential (p : String) :
    normalizePage p ≠ "credential" := by
  unfold normalizePage
  by_cases h : p = "credential"
  · simp [h]
  · simp [h]

/-- No aggregate entry ever carries the legacy page name. -/
theorem no_credential_foldl :
    ∀ (l : List AnalyticsData) (acc : List PageAgg),
      (∀ x ∈ acc, x.page ≠ "credential") →
      ∀ x ∈ l.foldl aggStep acc, x.page ≠ "credential"
  | [], _, h => h
  | i :: l, acc, h => by
    refine no_credential_foldl l (aggStep acc i) ?_
    intro x hx
    by_cases hsome : (acc.find? (fun a => a.page == normalizePage i.page)).isSome
    · have hx2 : x ∈ updateFirst (normalizePage i.page) i acc := by
        simpa [aggStep, hsome] using hx
      have hpage : x.page ∈ (updateFirst (normalizePage i.page) i acc).map
          (fun a => a.page) := List.mem_map.mpr ⟨x, hx2, rfl⟩
      rw [updateFirst_map_page] at hpage
      obtain ⟨a, ha, hpa⟩ := List.mem_map.mp hpage
      exact hpa ▸ h a ha
    · have hs : (acc.find? (fun a => a.page == normalizePage i.page)).isSome
          = false := by simpa using hsome
      have hx2 : x ∈ acc ++ [initAgg (normalizePage i.page) i] := by
        simpa [aggStep, hs, Bool.false_eq_true] using hx
      rcases List.mem_append.mp hx2 with hmem | hmem
      · exact h x hmem
      · have : x = initAgg (normalizePage i.page) i := by simpa using hmem
        rw [this]
        exact normalizePage_ne_credential i.page

/-- Claim C6: the traffic aggregator rewrites every credential record
to landing_page before summation, so an input containing both a
credential and a landing_page record aggregates into exactly one
landing_page entry whose four counts are the componentwise sums over
all records normalizing to landing_page, with no separate credential
entry and no double counting. -/
theorem C6_alias_unification :
    ∀ l : List AnalyticsData,
      (∃ i ∈ l, i.page = "credential") →
      (∃ j ∈ l, j.page = "landing_page") →
      (aggregatedByPage l).filter (fun e => e.page == "landing_page")
        = [⟨"landing_page", sumBy l "landing_page" (fun i => i.totalUsers),
            sumBy l "landing_page" (fun i => i.old),
            sumBy l "landing_page" (fun i => i.new),
            sumBy l "landing_page" (fun i => i.firstTime)⟩]
      ∧ ∀ e ∈ aggregatedByPage l, e.page ≠ "credential" := by
  intro l hc _hl
  have hany : l.any (fun i => normalizePage i.page == "landing_page") = true := by
    obtain ⟨i, hi, hpage⟩ := hc
    exact List.any_eq_true.mpr ⟨i, hi, by simp [normalizePage, hpage]⟩
  have hfind := aggFold_find?_of_none l [] "landing_page" rfl
  rw [hany, if_pos rfl] at hfind
  constructor
  · rw [show aggregatedByPage l = l.foldl aggStep [] from rfl,
      filter_eq_find?_toList _ _ (pages_nodup_foldl l [] (by simp)), hfind]
    rfl
  · exact no_credential_foldl l [] (by simp)

/-- Witness for claim C6 on a two-record input holding one credential
and one landing_page record. -/
theorem C6_alias_unification_witness :
    (aggregatedByPage
        [⟨"credential", 1, 2, 3, 4⟩, ⟨"landing_page", 10, 20, 30, 40⟩]).filter
        (fun e => e.page == "landing_page")
      = [⟨"landing_page",
          sumBy [⟨"credential", 1, 2, 3, 4⟩, ⟨"landing_page", 10, 20, 30, 40⟩]
            "landing_page" (fun i => i.totalUsers),
          sumBy [⟨"credential", 1, 2, 3, 4⟩, ⟨"landing_page", 10, 20, 30, 40⟩]
            "landing_page" (fun i => i.old),
          sumBy [⟨"credential", 1, 2, 3, 4⟩, ⟨"landing_page", 10, 20, 30, 40⟩]
            "landing_page" (fun i => i.new),
          sumBy [⟨"credential", 1, 2, 3, 4⟩, ⟨"landing_page", 10, 20, 30, 40⟩]
            "landing_page" (fun i => i.firstTime)⟩]
      ∧ ∀ e ∈ aggregatedByPage
          [⟨"credential", 1, 2, 3, 4⟩, ⟨"landing_page", 10, 20, 30, 40⟩],
          e.page ≠ "credential" :=
  C6_alias_unification
    [⟨"credential", 1, 2, 3, 4⟩, ⟨"landing_page", 10, 20, 30, 40⟩]
    (by decide) (by decide)

/-- Concrete check of the claim C6 scenario: the credential record
(1, 2, 3, 4) and the landing_page record (10, 20, 30, 40) merge into
the single landing_page entry (11, 22, 33, 44). -/
theorem aggregatedByPage_scenario :
    aggregatedByPage
        [⟨"credential", 1, 2, 3, 4⟩, ⟨"landing_page", 10, 20, 30, 40⟩]
      = [⟨"landing_page", 11, 22, 33, 44⟩] := by decide

/-- A list without underscore characters contains no separator. -/
theorem splitFirstSep_none_of_no_underscore :
    ∀ l : List Char, (∀ c ∈ l, c ≠ '_') → splitFirstSep l = none
  | [], _ => rfl
  | [_], _ => rfl
  | c₁ :: c₂ :: rest, h => by
    have h1 : c₁ ≠ '_' := h c₁ (by simp)
    have hrec := splitFirstSep_none_of_no_underscore (c₂ :: rest)
      (fun c hc => h c (List.mem_cons_of_mem c₁ hc))
    simp [splitFirstSep, h1, hrec]

/-- Splitting recovers the part before the first separator and the rest
when the prefix holds no underscore. -/
theorem splitFirstSep_append_sep :
    ∀ (l₁ l₂ : List Char), (∀ c ∈ l₁, c ≠ '_') →
      splitFirstSep (l₁ ++ '_' :: '_' :: l₂) = some (l₁, l₂)
  | [], l₂, _ => by simp [splitFirstSep]
  | c :: cs, l₂, h => by
    have h1 : c ≠ '_' := h c (by simp)
    have hrec := splitFirstSep_append_sep cs l₂
      (fun x hx => h x (List.mem_cons_of_mem c hx))
    cases cs with
    | nil => simp [splitFirstSep, h1]
    | cons c₂ cs₂ =>
      simp only [List.cons_append] at hrec ⊢
      simp [splitFirstSep, h1, hrec]

/-- Digit characters are never underscores. -/
theorem isDigitStr_no_underscore {s : String} (h : isDigitStr s = true) :
    ∀ c ∈ s.data, c ≠ '_' := by
  intro c hc
  have hd : c.isDigit = true := List.all_eq_true.mp h c hc
  intro hceq
  rw [hceq] at hd
  exact absurd hd (by decide)

/-- Splitting a double-underscore concatenation of two digit strings
recovers the pair. -/
theorem jsSplit01_append {f t : String} (hf : isDigitStr f = true)
    (ht : isDigitStr t = true) :
    jsSplit01 (f ++ "__" ++ t) = (f, t) := by
  have hu : "__".data = ['_', '_'] := rfl
  have hdata : (f ++ "__" ++ t).data = f.data ++ '_' :: '_' :: t.data := by
    rw [String.data_append, String.data_append, hu, List.append_assoc]
    rfl
  have h1 := splitFirstSep_append_sep f.data t.data (isDigitStr_no_underscore hf)
  have h2 := splitFirstSep_none_of_no_underscore t.data
    (isDigitStr_no_underscore ht)
  simp only [jsSplit01, hdata, h1, h2]

/-- After a set, the written key is found with the written value. -/
theorem find?_mapSet_self :
    ∀ (m : RangeMap) (k : String) (v : Int),
      (mapSet m k v).find? (fun e => e.1 == k) = some (k, v)
  | [], k, v => by simp [mapSet, List.find?_cons]
  | e :: rest, k, v => by
    by_cases h : e.1 == k
    · simp [mapSet, h, List.find?_cons]
    · simp [mapSet, h, List.find?_cons, find?_mapSet_self rest k v]

/-- A set leaves the lookup of every other key unchanged. -/
theorem find?_mapSet_ne :
    ∀ (m : RangeMap) (k : String) (v : Int) (q : String), q ≠ k →
      (mapSet m k v).find? (fun e => e.1 == q) = m.find? (fun e => e.1 == q)
  | [], k, v, q, hq => by simp [mapSet, List.find?_cons, Ne.symm hq]
  | e :: rest, k, v, q, hq => by
    by_cases h : e.1 == k
    · have he : e.1 = k := by simpa using h
      have h2 : (e.1 == q) = false := by simp [he, Ne.symm hq]
      simp [mapSet, h, List.find?_cons, h2, Ne.symm hq]
    · by_cases h2 : e.1 == q
      · simp [mapSet, h, List.find?_cons, h2]
      · simp [mapSet, h, List.find?_cons, h2, find?_mapSet_ne rest k v q hq]

/-- Get after set. -/
theorem mapGet_mapSet (m : RangeMap) (k : String) (v : Int) (q : String) :
    mapGet (mapSet m k v) q = if q = k then some v else mapGet m q := by
  by_cases hq : q = k
  · rw [if_pos hq, hq]
    simp [mapGet, find?_mapSet_self]
  · rw [if_neg hq]
    simp [mapGet, find?_mapSet_ne m k v q hq]

/-- Get after one aggregation insert. -/
theorem mapGet_insertRange (m : RangeMap) (r : RangeData) (q : String) :
    mapGet (insertRange m r) q
      = if q = rangeKey r then
          some ((mapGet m (rangeKey r)).getD 0 + r.total_users)
        else mapGet m q := by
  unfold insertRange
  exact mapGet_mapSet m (rangeKey r) _ q

/-- sumKeyed on the empty list. -/
theorem sumKeyed_nil (k : String) : sumKeyed k [] = 0 := rfl

/-- sumKeyed counts an entry with the matching key. -/
theorem sumKeyed_cons_eq {r : RangeData} {k : String} (h : rangeKey r = k)
    (rs : List RangeData) :
    sumKeyed k (r :: rs) = r.total_users + sumKeyed k rs := by
  simp [sumKeyed, h]

/-- sumKeyed skips an entry with a different key. -/
theorem sumKeyed_cons_ne {r : RangeData} {k : String} (h : rangeKey r ≠ k)
    (rs : List RangeData) :
    sumKeyed k (r :: rs) = sumKeyed k rs := by
  simp [sumKeyed, h]

/-- Folding inserts accumulates, per key, exactly the sum of the user
counts of the inserted entries carrying that key. -/
theorem getD_foldl_insertRange :
    ∀ (rs : List RangeData) (m : RangeMap) (k : String),
      (mapGet (rs.foldl insertRange m) k).getD 0
        = (mapGet m k).getD 0 + sumKeyed k rs
  | [], m, k => by simp [sumKeyed_nil]
  | r :: rs, m, k => by
    rw [List.foldl_cons, getD_foldl_insertRange rs (insertRange m r) k]
    by_cases hk : rangeKey r = k
    · rw [sumKeyed_cons_eq hk, mapGet_insertRange, if_pos hk.symm, hk]
      simp only [Option.getD_some]
      omega
    · rw [sumKeyed_cons_ne hk, mapGet_insertRange,
        if_neg (fun hh => hk hh.symm)]

/-- A key is present after the fold exactly when it was present before
or some inserted entry carries it. -/
theorem isSome_foldl_insertRange :
    ∀ (rs : List RangeData) (m : RangeMap) (k : String),
      (mapGet (rs.foldl insertRange m) k).isSome
        = ((mapGet m k).isSome || rs.any (fun r => rangeKey r == k))
  | [], m, k => by simp
  | r :: rs, m, k => by
    rw [List.foldl_cons, isSome_foldl_insertRange rs (insertRange m r) k]
    by_cases hk : rangeKey r = k
    · rw [mapGet_insertRange, if_pos hk.symm]
      simp [List.any_cons, hk]
    · have hb : (rangeKey r == k) = false := by simp [hk]
      rw [mapGet_insertRange, if_neg (fun hh => hk hh.symm)]
      simp [List.any_cons, hb]

/-- A found key is present. -/
theorem mapGet_isSome_iff (m : RangeMap) (k : String) :
    (mapGet m k).isSome = true ↔ k ∈ m.map (fun e => e.1) := by
  unfold mapGet
  have hmap : ∀ o : Option (String × Int),
      (o.map (fun e => e.2)).isSome = o.isSome := by
    intro o
    cases o <;> rfl
  rw [hmap, List.find?_isSome]
  constructor
  · rintro ⟨e, he, hk⟩
    exact List.mem_map.mpr ⟨e, he, by simpa using hk⟩
  · intro hmem
    obtain ⟨e, he, hk⟩ := List.mem_map.mp hmem
    exact ⟨e, he, by simp [hk]⟩

/-- A set on a present key leaves the key column unchanged. -/
theorem keys_mapSet_of_found :
    ∀ (m : RangeMap) (k : String) (v : Int),
      (m.find? (fun e => e.1 == k)).isSome →
      (mapSet m k v).map (fun e => e.1) = m.map (fun e => e.1)
  | [], k, v => by simp
  | e :: rest, k, v => by
    intro h
    by_cases he : e.1 == k
    · have : e.1 = k := by simpa using he
      simp [mapSet, he, this]
    · have h2 : (rest.find? (fun x => x.1 == k)).isSome := by
        simpa [List.find?_cons, he] using h
      simp [mapSet, he, keys_mapSet_of_found rest k v h2]

/-- A set on an absent key appends it to the key column. -/
theorem keys_mapSet_of_none :
    ∀ (m : RangeMap) (k : String) (v : Int),
      m.find? (fun e => e.1 == k) = none →
      (mapSet m k v).map (fun e => e.1) = m.map (fun e => e.1) ++ [k]
  | [], k, v, _ => by simp [mapSet]
  | e :: rest, k, v, h => by
    have he : (e.1 == k) = false := by
      by_contra hc
      simp [List.find?_cons, (by simpa using hc : (e.1 == k) = true)] at h
    simp [mapSet, he, keys_mapSet_of_none rest k v
      (by simpa [List.find?_cons, he] using h)]

/-- Sets keep the key column duplicate-free. -/
theorem keys_nodup_mapSet (m : RangeMap) (k : String) (v : Int)
    (h : (m.map (fun e => e.1)).Nodup) :
    ((mapSet m k v).map (fun e => e.1)).Nodup := by
  by_cases hf : (m.find? (fun e => e.1 == k)).isSome
  · rw [keys_mapSet_of_found m k v hf]
    exact h
  · have hnone : m.find? (fun e => e.1 == k) = none :=
      Option.not_isSome_iff_eq_none.mp hf
    rw [keys_mapSet_of_none m k v hnone]
    have hnotmem : k ∉ m.map (fun e => e.1) := by
      intro hmem
      obtain ⟨e, he, hk⟩ := List.mem_map.mp hmem
      have := List.find?_eq_none.mp hnone e he
      simp [hk] at this
    simp [List.nodup_append, h]
    intro x hx
    exact hnotmem (List.mem_map.mpr ⟨(k, x), hx, rfl⟩)

/-- The insert fold keeps the key column duplicate-free. -/
theorem keys_nodup_foldl_insertRange :
    ∀ (rs : List RangeData) (m : RangeMap),
      (m.map (fun e => e.1)).Nodup →
      ((rs.foldl insertRange m).map (fun e => e.1)).Nodup
  | [], _, h => h
  | r :: rs, m, h =>
    keys_nodup_foldl_insertRange rs (insertRange m r)
      (keys_nodup_mapSet m (rangeKey r) _ h)

/-- The nested per-date loops insert exactly the flattened range list. -/
theorem buildRangeMap_eq_flat :
    ∀ (entries : List WeeklyDateData) (m : RangeMap),
      entries.foldl stepEntry m = (flatRanges entries).foldl insertRange m
  | [], _ => rfl
  | e :: es, m => by
    rw [List.foldl_cons, buildRangeMap_eq_flat es (stepEntry m e)]
    show _ = ((e.ranges.getD []) ++ flatRanges es).foldl insertRange m
    rw [List.foldl_append]
    cases hr : e.ranges with
    | none => simp [stepEntry, hr]
    | some rs => simp [stepEntry, hr]

/-- The built map has a duplicate-free key column. -/
theorem keys_nodup_buildRangeMap (entries : List WeeklyDateData) :
    ((buildRangeMap entries).map (fun e => e.1)).Nodup := by
  rw [show buildRangeMap entries = entries.foldl stepEntry [] from rfl,
    buildRangeMap_eq_flat entries []]
  exact keys_nodup_foldl_insertRange (flatRanges entries) [] (by simp)

/-- With a duplicate-free key column, a member entry is what get
returns. -/
theorem mapGet_of_mem_nodup :
    ∀ (m : RangeMap), ((m.map (fun e => e.1)).Nodup) →
      ∀ kv ∈ m, mapGet m kv.1 = some kv.2
  | [], _, kv, hkv => by simp at hkv
  | e :: rest, h, kv, hkv => by
    have hnot : e.1 ∉ rest.map (fun x => x.1) := (List.nodup_cons.mp h).1
    have hrest : (rest.map (fun x => x.1)).Nodup := (List.nodup_cons.mp h).2
    rcases List.mem_cons.mp hkv with heq | hmem
    · subst heq
      simp [mapGet, List.find?_cons]
    · by_cases hk : kv.1 = e.1
      · exact absurd (hk ▸ List.mem_map.mpr ⟨kv, hmem, rfl⟩) hnot
      · have hb : (e.1 == kv.1) = false := by simp [Ne.symm hk]
        have := mapGet_of_mem_nodup rest hrest kv hmem
        simpa [mapGet, List.find?_cons, hb] using this

/-- Every entry of the built map carries the key of some flattened
range entry and the keyed sum of the user counts as its value. -/
theorem mem_buildRangeMap (entries : List WeeklyDateData) (kv : String × Int)
    (hkv : kv ∈ buildRangeMap entries) :
    (∃ r ∈ flatRanges entries, rangeKey r = kv.1)
    ∧ kv.2 = sumKeyed kv.1 (flatRanges entries) := by
  have hflat : buildRangeMap entries = (flatRanges entries).foldl insertRange [] :=
    buildRangeMap_eq_flat entries []
  have hget : mapGet (buildRangeMap entries) kv.1 = some kv.2 :=
    mapGet_of_mem_nodup _ (keys_nodup_buildRangeMap entries) kv hkv
  constructor
  · have hsome : (mapGet (buildRangeMap entries) kv.1).isSome = true := by
      rw [hget]; rfl
    rw [hflat, isSome_foldl_insertRange] at hsome
    have : (flatRanges entries).any (fun r => rangeKey r == kv.1) = true := by
      simpa [mapGet] using hsome
    obtain ⟨r, hr, hb⟩ := List.any_eq_true.mp this
    exact ⟨r, hr, by simpa using hb⟩
  · have := getD_foldl_insertRange (flatRanges entries) [] kv.1
    rw [← hflat, hget] at this
    simpa [mapGet] using this

/-- A key is in the built map exactly when some flattened entry
carries it. -/
theorem key_mem_buildRangeMap_iff (entries : List WeeklyDateData) (k : String) :
    k ∈ (buildRangeMap entries).map (fun e => e.1)
      ↔ (flatRanges entries).any (fun r => rangeKey r == k) = true := by
  rw [← mapGet_isSome_iff,
    show buildRangeMap entries = (flatRanges entries).foldl insertRange [] from
      buildRangeMap_eq_flat entries [],
    isSome_foldl_insertRange]
  simp [mapGet]

/-- With a duplicate-free key column, a key is counted once when
present and zero times otherwise. -/
theorem countP_key_nodup :
    ∀ (m : RangeMap) (k : String), ((m.map (fun e => e.1)).Nodup) →
      m.countP (fun e => e.1 == k)
        = if k ∈ m.map (fun e => e.1) then 1 else 0
  | [], k, _ => by simp
  | e :: rest, k, h => by
    have hnot : e.1 ∉ rest.map (fun x => x.1) := (List.nodup_cons.mp h).1
    have hrest : (rest.map (fun x => x.1)).Nodup := (List.nodup_cons.mp h).2
    by_cases hk : e.1 = k
    · have hzero : rest.countP (fun x => x.1 == k) = 0 := by
        refine List.countP_eq_zero.mpr ?_
        intro x hx hb
        have : x.1 = k := by simpa using hb
        exact hnot (hk ▸ this ▸ List.mem_map.mpr ⟨x, hx, rfl⟩)
      rw [List.countP_cons_of_pos _ _ (by simp [hk]), hzero,
        if_pos (by simp [List.mem_cons, hk])]
    · rw [List.countP_cons_of_neg _ _ (by simp [hk]),
        countP_key_nodup rest k hrest, List.map_cons]
      have hke : k ≠ e.1 := fun hh => hk hh.symm
      have hiff : (k ∈ List.map (fun x => x.1) rest) ↔
          (k ∈ e.1 :: List.map (fun x => x.1) rest) := by
        constructor
        · exact fun hm => List.mem_cons_of_mem _ hm
        · intro hm
          rcases List.mem_cons.mp hm with h1 | h1
          · exact absurd h1 hke
          · exact h1
      exact if_congr hiff rfl rfl

/-- Pointwise equal predicates give equal any. -/
theorem any_congr_mem :
    ∀ {α : Type} (l : List α) (p q : α → Bool), (∀ a ∈ l, p a = q a) →
      l.any p = l.any q
  | _, [], _, _, _ => rfl
  | _, a :: l, p, q, h => by
    rw [List.any_cons, List.any_cons, h a (by simp),
      any_congr_mem l p q (fun x hx => h x (List.mem_cons_of_mem a hx))]

/-- The running total fold is the list sum. -/
theorem foldl_add_total :
    ∀ (l : List RangeData) (s : Int),
      l.foldl (fun a r => a + r.total_users) s
        = s + (l.map (fun r => r.total_users)).sum
  | [], s => by simp
  | r :: l, s => by
    rw [List.foldl_cons, foldl_add_total l (s + r.total_users)]
    simp [List.map_cons]
    omega

/-- Rebuilding a map entry keyed by a digit-bounded range recovers the
range bounds. -/
theorem keyToRange_of_digits {r : RangeData}
    (hf : isDigitStr r.reward_from_range = true)
    (ht : isDigitStr r.reward_to_range = true) (v : Int) :
    keyToRange (rangeKey r, v)
      = ⟨r.reward_from_range, r.reward_to_range, v⟩ := by
  unfold keyToRange rangeKey
  rw [jsSplit01_append hf ht]

/-- On digit bounds, matching the merge key is the same as matching the
bound pair. -/
theorem key_beq_iff_pair {r : RangeData} {f t : String}
    (hrf : isDigitStr r.reward_from_range = true)
    (hrt : isDigitStr r.reward_to_range = true)
    (hf : isDigitStr f = true) (ht : isDigitStr t = true) :
    (rangeKey r == f ++ "__" ++ t)
      = (r.reward_from_range == f && r.reward_to_range == t) := by
  by_cases hpair : r.reward_from_range = f ∧ r.reward_to_range = t
  · have hkeyeq : rangeKey r = f ++ "__" ++ t := by
      rw [rangeKey, hpair.1, hpair.2]
    simp [hpair.1, hpair.2, hkeyeq]
  · have hkeyne : rangeKey r ≠ f ++ "__" ++ t := by
      intro hh
      have h1 : jsSplit01 (rangeKey r)
          = (r.reward_from_range, r.reward_to_range) :=
        jsSplit01_append hrf hrt
      have h2 := jsSplit01_append hf ht
      rw [hh, h2] at h1
      obtain ⟨hfe, hte⟩ := Prod.mk.injEq .. |>.mp h1
      exact hpair ⟨hfe.symm, hte.symm⟩
    have h1 : (rangeKey r == f ++ "__" ++ t) = false := by simp [hkeyne]
    rw [h1]
    rcases not_and_or.mp hpair with hne | hne <;> simp [hne]

/-- On digit data the keyed sum equals the per-pair sum. -/
theorem sumKeyed_eq_sumForPair (entries : List WeeklyDateData)
    (hd : ∀ r ∈ flatRanges entries, isDigitStr r.reward_from_range = true
      ∧ isDigitStr r.reward_to_range = true)
    {f t : String} (hf : isDigitStr f = true) (ht : isDigitStr t = true) :
    sumKeyed (f ++ "__" ++ t) (flatRanges entries) = sumForPair f t entries := by
  unfold sumKeyed sumForPair
  rw [List.filter_congr (fun r hr =>
    key_beq_iff_pair (hd r hr).1 (hd r hr).2 hf ht)]

/-- Claim C1: for a nested-by-date payload under the daily, weekly or
monthly period (with the decimal-digit range bounds the backend emits),
the normalizer returns the aggregation of the date entries: exactly one
bucket per distinct (reward_from_range, reward_to_range) pair, carrying
the sum of that pair over all date entries; the buckets sorted
ascending by parsed lower bound; and a total_users field equal to the
sum of the merged bucket counts. -/
theorem C1_nested_by_date_merge :
    ∀ (p : TimePeriod) (entries : List WeeklyDateData) (msg : String),
      p = .daily ∨ p = .weekly ∨ p = .monthly →
      (∀ r ∈ flatRanges entries, isDigitStr r.reward_from_range = true
        ∧ isDigitStr r.reward_to_range = true) →
      normalizeSpiceGold p ⟨200, RawData.arrayData entries, msg⟩
        = .ok ⟨200,
            ⟨some (totalUsersOf entries), some (aggregatedRangesOf entries),
              some entries, none, none, none⟩, msg⟩
      ∧ (∀ f t : String, isDigitStr f = true → isDigitStr t = true →
          (aggregatedRangesOf entries).countP
              (fun r => r.reward_from_range == f && r.reward_to_range == t)
            = if pairOccurs f t entries then 1 else 0)
      ∧ (∀ b ∈ aggregatedRangesOf entries,
          b.total_users
            = sumForPair b.reward_from_range b.reward_to_range entries)
      ∧ (aggregatedRangesOf entries).Pairwise fromLe
      ∧ totalUsersOf entries
          = ((aggregatedRangesOf entries).map (fun r => r.total_users)).sum := by
  intro p entries msg hp hd
  refine ⟨?_, ?_, ?_, ?_, ?_⟩
  · rcases hp with rfl | rfl | rfl <;> rfl
  · intro f t hf ht
    have hperm := List.perm_insertionSort fromLe
      ((buildRangeMap entries).map keyToRange)
    rw [show aggregatedRangesOf entries
        = ((buildRangeMap entries).map keyToRange).insertionSort fromLe
        from rfl, hperm.countP_eq, List.countP_map]
    have hpoint : ∀ kv ∈ buildRangeMap entries,
        (((fun r => r.reward_from_range == f && r.reward_to_range == t) ∘
          keyToRange) kv) = true ↔ (kv.1 == f ++ "__" ++ t) = true := by
      intro kv hkv
      obtain ⟨⟨r, hr, hkey⟩, _⟩ := mem_buildRangeMap entries kv hkv
      obtain ⟨hrf, hrt⟩ := hd r hr
      obtain ⟨k, v⟩ := kv
      have hkeq : rangeKey r = k := hkey
      subst hkeq
      have hk2 : keyToRange (rangeKey r, v)
          = ⟨r.reward_from_range, r.reward_to_range, v⟩ :=
        keyToRange_of_digits hrf hrt v
      rw [Function.comp_apply, hk2]
      rw [show ((rangeKey r, v).1) = rangeKey r from rfl,
        key_beq_iff_pair hrf hrt hf ht]
    rw [List.countP_congr hpoint,
      countP_key_nodup (buildRangeMap entries) (f ++ "__" ++ t)
        (keys_nodup_buildRangeMap entries)]
    have hany : (flatRanges entries).any
        (fun r => rangeKey r == f ++ "__" ++ t) = pairOccurs f t entries := by
      unfold pairOccurs
      exact any_congr_mem (flatRanges entries) _ _
        (fun r hr => key_beq_iff_pair (hd r hr).1 (hd r hr).2 hf ht)
    refine if_congr ?_ rfl rfl
    rw [key_mem_buildRangeMap_iff, hany]
  · intro b hb
    have hperm := List.perm_insertionSort fromLe
      ((buildRangeMap entries).map keyToRange)
    have hb2 : b ∈ (buildRangeMap entries).map keyToRange :=
      hperm.mem_iff.mp hb
    obtain ⟨kv, hkv, hbeq⟩ := List.mem_map.mp hb2
    obtain ⟨⟨r, hr, hkey⟩, hval⟩ := mem_buildRangeMap entries kv hkv
    obtain ⟨hrf, hrt⟩ := hd r hr
    obtain ⟨k, v⟩ := kv
    have hkeq : rangeKey r = k := hkey
    subst hkeq
    have hk2 : keyToRange (rangeKey r, v)
        = ⟨r.reward_from_range, r.reward_to_range, v⟩ :=
      keyToRange_of_digits hrf hrt v
    rw [hk2] at hbeq
    subst hbeq
    show v = sumForPair r.reward_from_range r.reward_to_range entries
    have hv : v = sumKeyed (rangeKey r) (flatRanges entries) := hval
    rw [hv]
    exact sumKeyed_eq_sumForPair entries hd hrf hrt
  · exact List.sorted_insertionSort fromLe _
  · show (aggregatedRangesOf entries).foldl (fun s r => s + r.total_users) 0
        = ((aggregatedRangesOf entries).map (fun r => r.total_users)).sum
    rw [foldl_add_total]
    omega

/-- Witness for claim C1: the two-date scenario with the bucket
(from = 0, to = 50) carrying 3 and 5 users. -/
theorem C1_nested_by_date_merge_witness :
    normalizeSpiceGold .weekly
        ⟨200,
          RawData.arrayData
            [⟨"2024-01-01", none, some [⟨"0", "50", 3⟩]⟩,
              ⟨"2024-01-02", none, some [⟨"0", "50", 5⟩]⟩], "ok"⟩
      = .ok ⟨200,
          ⟨some (totalUsersOf
              [⟨"2024-01-01", none, some [⟨"0", "50", 3⟩]⟩,
                ⟨"2024-01-02", none, some [⟨"0", "50", 5⟩]⟩]),
            some (aggregatedRangesOf
              [⟨"2024-01-01", none, some [⟨"0", "50", 3⟩]⟩,
                ⟨"2024-01-02", none, some [⟨"0", "50", 5⟩]⟩]),
            some [⟨"2024-01-01", none, some [⟨"0", "50", 3⟩]⟩,
              ⟨"2024-01-02", none, some [⟨"0", "50", 5⟩]⟩],
            none, none, none⟩, "ok"⟩
    ∧ (∀ f t : String, isDigitStr f = true → isDigitStr t = true →
        (aggregatedRangesOf
            [⟨"2024-01-01", none, some [⟨"0", "50", 3⟩]⟩,
              ⟨"2024-01-02", none, some [⟨"0", "50", 5⟩]⟩]).countP
            (fun r => r.reward_from_range == f && r.reward_to_range == t)
          = if pairOccurs f t
              [⟨"2024-01-01", none, some [⟨"0", "50", 3⟩]⟩,
                ⟨"2024-01-02", none, some [⟨"0", "50", 5⟩]⟩] then 1 else 0)
    ∧ (∀ b ∈ aggregatedRangesOf
          [⟨"2024-01-01", none, some [⟨"0", "50", 3⟩]⟩,
            ⟨"2024-01-02", none, some [⟨"0", "50", 5⟩]⟩],
        b.total_users
          = sumForPair b.reward_from_range b.reward_to_range
              [⟨"2024-01-01", none, some [⟨"0", "50", 3⟩]⟩,
                ⟨"2024-01-02", none, some [⟨"0", "50", 5⟩]⟩])
    ∧ (aggregatedRangesOf
        [⟨"2024-01-01", none, some [⟨"0", "50", 3⟩]⟩,
          ⟨"2024-01-02", none, some [⟨"0", "50", 5⟩]⟩]).Pairwise fromLe
    ∧ totalUsersOf
          [⟨"2024-01-01", none, some [⟨"0", "50", 3⟩]⟩,
            ⟨"2024-01-02", none, some [⟨"0", "50", 5⟩]⟩]
        = ((aggregatedRangesOf
            [⟨"2024-01-01", none, some [⟨"0", "50", 3⟩]⟩,
              ⟨"2024-01-02", none, some [⟨"0", "50", 5⟩]⟩]).map
            (fun r => r.total_users)).sum :=
  C1_nested_by_date_merge .weekly
    [⟨"2024-01-01", none, some [⟨"0", "50", 3⟩]⟩,
      ⟨"2024-01-02", none, some [⟨"0", "50", 5⟩]⟩] "ok"
    (Or.inr (Or.inl rfl)) (by decide)

/-- Concrete evaluation of the claim C1 scenario: the two (0, 50)
buckets with 3 and 5 users merge into the single bucket (0, 50) with
8 users, and the snapshot total is 8. -/
theorem nested_merge_scenario :
    aggregatedRangesOf
        [⟨"2024-01-01", none, some [⟨"0", "50", 3⟩]⟩,
          ⟨"2024-01-02", none, some [⟨"0", "50", 5⟩]⟩]
      = [⟨"0", "50", 8⟩]
    ∧ totalUsersOf
        [⟨"2024-01-01", none, some [⟨"0", "50", 3⟩]⟩,
          ⟨"2024-01-02", none, some [⟨"0", "50", 5⟩]⟩]
      = 8 := by
  constructor
  · decide
  · decide
